import Mathlib

/-!
# kinesis-consumer: shard discovery and the checkpoint-store retry classifier

A shallow embedding of `listShards` (src/kinesis.go) over the `KinesisAPI`
interface (src/kinesisiface/kinesisAPI.go), together with the retry
classifier exercised by src/store/ddb/retryer_test.go.

Conventions of the embedding.

* A Go pointer `*string` is an `Option String`; `nil` is `none`.
* A Go slice is a `List`.  Inside `listShards` the accumulator starts as the
  nil slice and only ever grows by `append`, so it is nil exactly when it is
  empty: the nil slice is `[]`.
* A Go `error` is an `Option GoError`; the nil error is `none`.
* The `for` loop has no bound of its own, so the loop takes a fuel argument:
  a run is either `returned` or, after that many iterations, `outOfFuel`.
* The client behind the interface is an arbitrary deterministic state
  machine that answers a call with either an error or a response; every call
  of `ListShards` is recorded in a trace.  The loop sees of a client only its
  responses (`listShards_eq_scripted`), so the properties are stated for the
  clients that answer from a script of responses.
-/

namespace KinesisConsumer

/-! ## Values of the AWS SDK types that `listShards` touches -/

/-- A `types.Shard` of the Kinesis SDK.  `listShards` never inspects a shard;
it only copies them. -/
structure Shard where
  ShardId : Option String
  ParentShardId : Option String
  AdjacentParentShardId : Option String
  HashKeyRange : Option (String × String)
  SequenceNumberRange : Option (String × Option String)
  deriving DecidableEq, Repr

/-- The fields of `kinesis.ListShardsInput`.  A composite literal leaves every
field it does not name at its zero value, `nil`. -/
structure ListShardsInput where
  StreamName : Option String := none
  NextToken : Option String := none
  ExclusiveStartShardId : Option String := none
  MaxResults : Option Int := none
  deriving DecidableEq, Repr

/-- The fields of `kinesis.ListShardsOutput` read by `listShards`. -/
structure ListShardsOutput where
  NextToken : Option String
  Shards : List Shard
  deriving DecidableEq, Repr

/-- A non-nil Go `error` value, as the interface holds it: the name of its
dynamic type, whether that type is comparable (`reflect.Type.Comparable`), the
value held (for a pointer type, the address), what `Error()` prints and, for a
type with an `Unwrap() error` method, the error it wraps.  Error types that
declare an `Is` or `As` method of their own, or `Unwrap() []error`, are not
represented. -/
inductive GoError where
  | leaf (dynType : String) (comparable : Bool) (ident : Nat) (msg : String)
  | wrapper (dynType : String) (comparable : Bool) (ident : Nat) (msg : String)
      (inner : GoError)
  deriving DecidableEq, Repr

/-- The method `Error()`. -/
def GoError.Error : GoError → String
  | .leaf _ _ _ msg => msg
  | .wrapper _ _ _ msg _ => msg

/-- The dynamic type of the error value. -/
def GoError.dynType : GoError → String
  | .leaf ty _ _ _ => ty
  | .wrapper ty _ _ _ _ => ty

/-- Whether the dynamic type of the error value is comparable. -/
def GoError.comparable : GoError → Bool
  | .leaf _ c _ _ => c
  | .wrapper _ c _ _ _ => c

/-- The value the interface holds: for a pointer type, the address. -/
def GoError.ident : GoError → Nat
  | .leaf _ _ i _ => i
  | .wrapper _ _ i _ _ => i

/-- The function `errors.Unwrap`: the wrapped error, `none` when the type has
no `Unwrap` method. -/
def GoError.Unwrap : GoError → Option GoError
  | .leaf _ _ _ _ => none
  | .wrapper _ _ _ _ inner => some inner

/-- The largest address among the error and the errors it wraps. -/
def GoError.maxIdent : GoError → Nat
  | .leaf _ _ i _ => i
  | .wrapper _ _ i _ inner => max i inner.maxIdent

/-- The comparison `a == b` of two error interface values of comparable
dynamic type: the same dynamic type holding the same value. -/
def interfaceEq (a b : GoError) : Bool :=
  decide (a.dynType = b.dynType) && decide (a.ident = b.ident)

/-- The call `fmt.Errorf(pre + "%w", err)` for a non-nil `err`: a newly
allocated `*fmt.wrapError`, a comparable pointer at an address that none of the
errors it wraps has, whose message is `pre` followed by `err.Error()` and whose
`Unwrap` is `err`. -/
def fmtErrorfW (pre : String) (err : GoError) : GoError :=
  .wrapper "*fmt.wrapError" true (err.maxIdent + 1) (pre ++ err.Error) err

/-- The loop `is(err, target, targetComparable)` of the package `errors`: at
each error of the `Unwrap` chain, a match needs the target's type to be
comparable and `err == target`; the chain ends at an error without `Unwrap`. -/
def errorsIsLoop : GoError → GoError → Bool → Bool
  | .leaf ty c i msg, target, targetComparable =>
      targetComparable && interfaceEq (.leaf ty c i msg) target
  | .wrapper ty c i msg inner, target, targetComparable =>
      (targetComparable && interfaceEq (.wrapper ty c i msg inner) target) ||
        errorsIsLoop inner target targetComparable

/-- The function `errors.Is` on non-nil errors: `isComparable` is taken from
the dynamic type of `target`, then the chain of `err` is walked. -/
def errorsIs (err target : GoError) : Bool :=
  errorsIsLoop err target target.comparable

/-- The function `errors.As` on a non-nil error, for a target type given by
the dynamic types assignable to it (one type for a concrete target, every
implementing type for an interface target): the first error of the `Unwrap`
chain whose dynamic type is assignable, which is what the target is set to. -/
def errorsAs : GoError → (String → Bool) → Option GoError
  | .leaf ty c i msg, assignable =>
      if assignable ty then some (.leaf ty c i msg) else none
  | .wrapper ty c i msg inner, assignable =>
      if assignable ty then some (.wrapper ty c i msg inner) else errorsAs inner assignable

/-- A `context.Context`.  `Background` is the value of `context.Background()`;
`WithCancel` is a context derived by `context.WithCancel`, identified by the
number of its cancel function. -/
inductive Context where
  | Background
  | WithCancel (parent : Context) (cancelId : Nat)
  deriving DecidableEq, Repr

/-- Whether the context has a `Done` channel, that is, whether some cancel
function can ever cancel it.  `context.Background()` "is never canceled". -/
def Context.canBeCancelled : Context → Bool
  | .Background => false
  | .WithCancel _ _ => true

/-! ## The client interface -/

/-- What one `ListShards` call returns: `(resp, nil)` or `(nil, err)`. -/
abbrev ListShardsResult := Except GoError ListShardsOutput

/-- The method `ListShards` of the interface `kinesisiface.KinesisAPI`, for a
client whose internal state has type `σ`: from the state, the context and the
request, the result and the next state. -/
structure KinesisAPI (σ : Type) where
  ListShards : σ → Context → ListShardsInput → ListShardsResult × σ

/-- One recorded `ListShards` call: the context and the request passed. -/
structure Call where
  ctx : Context
  input : ListShardsInput
  deriving DecidableEq, Repr

/-- A run of `listShards`, with the trace of the `ListShards` calls it made,
oldest first: either it returned `(shards, err)`, or it is still inside the
loop after as many iterations as it was given fuel for. -/
inductive Run where
  | returned (shards : List Shard) (err : Option GoError) (calls : List Call)
  | outOfFuel (calls : List Call)
  deriving DecidableEq, Repr

/-- The `ListShards` calls made during the run. -/
def Run.calls : Run → List Call
  | .returned _ _ calls => calls
  | .outOfFuel calls => calls

/-- Whether the run returned. -/
def Run.hasReturned : Run → Bool
  | .returned _ _ _ => true
  | .outOfFuel _ => false

/-! ## `listShards` (src/kinesis.go) -/

/-- The `for` loop of `listShards`: `st` is the client state, `input` the
variable `listShardsInput`, `ss` the accumulator and `calls` the trace. -/
def listShardsLoop {σ : Type} (ksis : KinesisAPI σ) (ctx : Context) :
    Nat → σ → ListShardsInput → List Shard → List Call → Run
  | 0, _, _, _, calls => .outOfFuel calls
  | fuel + 1, st, input, ss, calls =>
      match ksis.ListShards st ctx input with
      | (.error err, _) =>
          .returned [] (some (fmtErrorfW "ListShards error: " err)) (calls ++ [Call.mk ctx input])
      | (.ok resp, st') =>
          match resp.NextToken with
          | none => .returned (ss ++ resp.Shards) none (calls ++ [Call.mk ctx input])
          | some tok =>
              listShardsLoop ksis ctx fuel st' { NextToken := some tok }
                (ss ++ resp.Shards) (calls ++ [Call.mk ctx input])

/-- The function `listShards`: the first request names the stream, the context
of every call is `context.Background()`. -/
def listShards {σ : Type} (fuel : Nat) (ksis : KinesisAPI σ) (st : σ)
    (streamName : String) : Run :=
  listShardsLoop ksis Context.Background fuel st { StreamName := some streamName } [] []

/-! ## Clients that answer from a script -/

/-- The client whose `k`-th `ListShards` call (counting from 0) returns
`script k`; its state is the number of calls already answered. -/
def scripted (script : Nat → ListShardsResult) : KinesisAPI Nat where
  ListShards := fun k _ _ => (script k, k + 1)

/-- The script answers its first calls with the pages of `pages`, in order. -/
def StartsWith (script : Nat → ListShardsResult) (pages : List ListShardsOutput) : Prop :=
  ∀ i p, pages[i]? = some p → script i = .ok p

/-- The shards of a list of pages, page after page. -/
def allShards : List ListShardsOutput → List Shard
  | [] => []
  | p :: ps => p.Shards ++ allShards ps

/-- The request `listShards` sends after a page: only the page's token. -/
def followUp (p : ListShardsOutput) : ListShardsInput :=
  { NextToken := p.NextToken }

/-- The requests of a listing of `streamName` that is answered with `pages`,
each carrying a token: the stream name alone, then one token after another. -/
def requestsFor (streamName : String) (pages : List ListShardsOutput) : List ListShardsInput :=
  { StreamName := some streamName } :: pages.map followUp

/-- What `listShards` returns for the response that ends the listing. -/
def finish (ss : List Shard) : ListShardsResult → List Shard × Option GoError
  | .error err => ([], some (fmtErrorfW "ListShards error: " err))
  | .ok resp => (ss ++ resp.Shards, none)

/-- A response after which `listShards` makes no further call: an error, or a
page with a nil `NextToken`. -/
def isTerminal : ListShardsResult → Bool
  | .error _ => true
  | .ok resp => resp.NextToken.isNone

/-- A response that is an error. -/
def isError : ListShardsResult → Bool
  | .error _ => true
  | .ok _ => false

/-- What the loop can see of a response when it decides whether to go on:
`none` for an error, otherwise the page's `NextToken`. -/
def tokenView : ListShardsResult → Option (Option String)
  | .error _ => none
  | .ok resp => some resp.NextToken

/-- The response an arbitrary client gives to call number `k` (from 0) of a
listing that starts in state `st` with request `input` and follows the tokens;
once a response has ended the listing no further call is made, and the value
stays that response. -/
def observed {σ : Type} (ksis : KinesisAPI σ) (ctx : Context) :
    Nat → σ → ListShardsInput → ListShardsResult
  | 0, st, input => (ksis.ListShards st ctx input).1
  | k + 1, st, input =>
      match ksis.ListShards st ctx input with
      | (.error err, _) => .error err
      | (.ok resp, st') =>
          match resp.NextToken with
          | none => .ok resp
          | some tok => observed ksis ctx k st' { NextToken := some tok }

/-! ## The retry classifier of the checkpoint store -/

/-- Modelled from the spec: what an error of the backing store signals.  The
file store/ddb/retryer.go that declares `DefaultRetryer` is missing; the spec
(section 4.4) sorts errors into those "signaling transient capacity exhaustion
or service unavailability" and "validation/precondition failures". -/
inductive ErrorSignal where
  | transientCapacity
  | serviceUnavailable
  | validationPrecondition
  deriving DecidableEq, Repr

/-- Modelled from the spec: the kinds of store error that the spec (section
4.4) and src/store/ddb/retryer_test.go name; the error types themselves are
declared in the DynamoDB SDK and in the missing store/ddb/retryer.go. -/
inductive StoreErrorKind where
  | ProvisionedThroughputExceededException
  | InternalServerError
  | Timeout
  | ConditionalCheckFailedException
  | ResourceNotFoundException
  | MalformedRequest
  | PointInTimeRecoveryUnavailableException
  deriving DecidableEq, Repr

/-- Modelled from the spec: the sorting of section 4.4, "throughput-exceeded,
internal server errors, timeouts" against "conditional-write mismatch,
resource-not-found, malformed-request"; the test of the missing
store/ddb/retryer.go puts `PointInTimeRecoveryUnavailableException` with the
latter. -/
def StoreErrorKind.signal : StoreErrorKind → ErrorSignal
  | .ProvisionedThroughputExceededException => .transientCapacity
  | .InternalServerError => .serviceUnavailable
  | .Timeout => .serviceUnavailable
  | .ConditionalCheckFailedException => .validationPrecondition
  | .ResourceNotFoundException => .validationPrecondition
  | .MalformedRequest => .validationPrecondition
  | .PointInTimeRecoveryUnavailableException => .validationPrecondition

/-- Modelled from the spec: an error value handed to the classifier, an
instance of one of the kinds with the message it carries; the missing
store/ddb/retryer.go receives it as a Go `error`. -/
structure StoreError where
  kind : StoreErrorKind
  message : Option String
  deriving DecidableEq, Repr

/-- Modelled from the spec: the type `DefaultRetryer` of the missing
store/ddb/retryer.go, which the test builds as the empty literal
`&DefaultRetryer{}`. -/
structure DefaultRetryer where
  deriving DecidableEq, Repr

/-- Modelled from the spec: the method `ShouldRetry` of the missing
store/ddb/retryer.go.  Section 4.4: "Retryable errors are those signaling
transient capacity exhaustion or service unavailability"; "Non-retryable
errors are validation/precondition failures". -/
def DefaultRetryer.ShouldRetry (_ : DefaultRetryer) (err : StoreError) : Bool :=
  match err.kind.signal with
  | .transientCapacity => true
  | .serviceUnavailable => true
  | .validationPrecondition => false

/-! ## Concrete shards, pages and clients -/

def shardA : Shard := ⟨some "shardId-000000000000", none, none, none, none⟩

def shardB : Shard := ⟨some "shardId-000000000001", none, none, none, none⟩

def shardC : Shard :=
  ⟨some "shardId-000000000002", some "shardId-000000000000", none, none, none⟩

/-- A first page: two shards and a continuation token. -/
def pageOne : ListShardsOutput := ⟨some "token-1", [shardA, shardB]⟩

/-- A last page: one shard and no token. -/
def pageTwo : ListShardsOutput := ⟨none, [shardC]⟩

/-- A page with a token and no shard. -/
def emptyPageWithToken : ListShardsOutput := ⟨some "token-1", []⟩

/-- A page with neither shard nor token. -/
def emptyLastPage : ListShardsOutput := ⟨none, []⟩

/-- The error of a failed `ListShards` call. -/
def streamNotFound : GoError :=
  .leaf "*types.ResourceNotFoundException" true 1
    "ResourceNotFoundException: stream test not found"

/-- An error whose dynamic type is a slice type, `type sliceErr []string` with
an `Error` method: a value of a type that is not comparable. -/
def sliceErr : GoError :=
  .leaf "sliceErr" false 2 "a"

/-- A client whose first call fails with `sliceErr`. -/
def failsWithSliceErr : Nat → ListShardsResult :=
  fun _ => .error sliceErr

/-- A client that serves `pageOne`, then `pageTwo`. -/
def twoPages : Nat → ListShardsResult
  | 0 => .ok pageOne
  | _ => .ok pageTwo

/-- A client that serves `pageOne`, then fails. -/
def failsSecond : Nat → ListShardsResult
  | 0 => .ok pageOne
  | _ => .error streamNotFound

/-- A client that serves an empty page with a token, then `pageTwo`. -/
def emptyThenPage : Nat → ListShardsResult
  | 0 => .ok emptyPageWithToken
  | _ => .ok pageTwo

/-- A client whose every page carries a token. -/
def endless : Nat → ListShardsResult :=
  fun _ => .ok pageOne

/-- The context that `trap` of src/cmd/consumer/main.go builds and hands to
`Scan`: `context.WithCancel(context.Background())`. -/
def scanContext : Context := .WithCancel .Background 0

/-! ## How the loop runs on a scripted client -/

theorem loop_error (script : Nat → ListShardsResult) (ctx : Context) (fuel k : Nat)
    (input : ListShardsInput) (ss : List Shard) (calls : List Call) (err : GoError)
    (h : script k = .error err) :
    listShardsLoop (scripted script) ctx (fuel + 1) k input ss calls =
      .returned [] (some (fmtErrorfW "ListShards error: " err)) (calls ++ [Call.mk ctx input]) := by
  simp [listShardsLoop, scripted, h]

theorem loop_last (script : Nat → ListShardsResult) (ctx : Context) (fuel k : Nat)
    (input : ListShardsInput) (ss : List Shard) (calls : List Call) (resp : ListShardsOutput)
    (h : script k = .ok resp) (htok : resp.NextToken = none) :
    listShardsLoop (scripted script) ctx (fuel + 1) k input ss calls =
      .returned (ss ++ resp.Shards) none (calls ++ [Call.mk ctx input]) := by
  simp [listShardsLoop, scripted, h, htok]

theorem loop_next (script : Nat → ListShardsResult) (ctx : Context) (fuel k : Nat)
    (input : ListShardsInput) (ss : List Shard) (calls : List Call) (resp : ListShardsOutput)
    (h : script k = .ok resp) (htok : resp.NextToken ≠ none) :
    listShardsLoop (scripted script) ctx (fuel + 1) k input ss calls =
      listShardsLoop (scripted script) ctx fuel (k + 1) (followUp resp)
        (ss ++ resp.Shards) (calls ++ [Call.mk ctx input]) := by
  cases htk : resp.NextToken with
  | none => exact absurd htk htok
  | some tok => simp [listShardsLoop, scripted, h, htk, followUp]

theorem loop_terminal (script : Nat → ListShardsResult) (ctx : Context) (fuel k : Nat)
    (input : ListShardsInput) (ss : List Shard) (calls : List Call)
    (hterm : isTerminal (script k) = true) :
    listShardsLoop (scripted script) ctx (fuel + 1) k input ss calls =
      .returned (finish ss (script k)).1 (finish ss (script k)).2 (calls ++ [Call.mk ctx input]) := by
  cases h : script k with
  | error err => rw [loop_error script ctx fuel k input ss calls err h]; rfl
  | ok resp =>
      have htok : resp.NextToken = none := by
        rw [h] at hterm
        simpa [isTerminal] using hterm
      rw [loop_last script ctx fuel k input ss calls resp h htok]; rfl

theorem nonterminal_ok (r : ListShardsResult) (h : isTerminal r = false) :
    ∃ resp, r = .ok resp ∧ resp.NextToken ≠ none := by
  cases r with
  | error err => simp [isTerminal] at h
  | ok resp =>
      refine ⟨resp, rfl, ?_⟩
      intro hn
      simp [isTerminal, hn] at h

/-- The run on a chain: `pages` are answered from position `k` on, each with a
token, and the response at position `k + pages.length` ends the listing. -/
theorem loop_chain (script : Nat → ListShardsResult) (ctx : Context) :
    ∀ (pages : List ListShardsOutput) (k : Nat) (input : ListShardsInput)
      (ss : List Shard) (calls : List Call) (fuel : Nat),
      (∀ i p, pages[i]? = some p → script (k + i) = .ok p) →
      (∀ p ∈ pages, p.NextToken ≠ none) →
      isTerminal (script (k + pages.length)) = true →
      pages.length < fuel →
      listShardsLoop (scripted script) ctx fuel k input ss calls =
        .returned (finish (ss ++ allShards pages) (script (k + pages.length))).1
          (finish (ss ++ allShards pages) (script (k + pages.length))).2
          (calls ++ (input :: pages.map followUp).map (Call.mk ctx)) := by
  intro pages
  induction pages with
  | nil =>
      intro k input ss calls fuel _ _ hterm hfuel
      obtain ⟨f, rfl⟩ : ∃ f, fuel = f + 1 := ⟨fuel - 1, by simp at hfuel; omega⟩
      simp only [List.length_nil, Nat.add_zero] at hterm ⊢
      rw [loop_terminal script ctx f k input ss calls hterm]
      simp [allShards]
  | cons p ps ih =>
      intro k input ss calls fuel hpages htoks hterm hfuel
      obtain ⟨f, rfl⟩ : ∃ f, fuel = f + 1 := ⟨fuel - 1, by simp at hfuel; omega⟩
      have hp : script k = .ok p := by simpa using hpages 0 p (by simp)
      have hptok : p.NextToken ≠ none := htoks p (by simp)
      rw [loop_next script ctx f k input ss calls p hp hptok]
      have hlen : k + (p :: ps).length = k + 1 + ps.length := by simp; omega
      rw [hlen] at hterm ⊢
      have hstep := ih (k + 1) (followUp p) (ss ++ p.Shards) (calls ++ [Call.mk ctx input]) f
        (fun i q hq => by
          have := hpages (i + 1) q (by simpa using hq)
          rw [← this]; congr 1; omega)
        (fun q hq => htoks q (by simp [hq]))
        hterm (by simp at hfuel; omega)
      rw [hstep]
      simp [allShards, List.append_assoc]

/-- As long as no response ends the listing, every iteration makes one more
call and the run does not return. -/
theorem loop_starved (script : Nat → ListShardsResult) (ctx : Context) :
    ∀ (fuel k : Nat) (input : ListShardsInput) (ss : List Shard) (calls : List Call),
      (∀ i, i < fuel → isTerminal (script (k + i)) = false) →
      ∃ cs, listShardsLoop (scripted script) ctx fuel k input ss calls = .outOfFuel cs ∧
        cs.length = calls.length + fuel := by
  intro fuel
  induction fuel with
  | zero => intro k input ss calls _; exact ⟨calls, rfl, rfl⟩
  | succ f ih =>
      intro k input ss calls h
      obtain ⟨resp, hk, htok⟩ := nonterminal_ok (script k) (by simpa using h 0 (by omega))
      rw [loop_next script ctx f k input ss calls resp hk htok]
      obtain ⟨cs, hcs, hlen⟩ := ih (k + 1) (followUp resp) (ss ++ resp.Shards)
        (calls ++ [Call.mk ctx input])
        (fun i hi => by
          have := h (i + 1) (by omega)
          rw [← this]; congr 2; omega)
      exact ⟨cs, hcs, by rw [hlen]; simp; omega⟩

/-- When the first response that ends the listing is at position `k + n`, a
run with more than `n` iterations returns after exactly `n + 1` calls. -/
theorem loop_returns (script : Nat → ListShardsResult) (ctx : Context) :
    ∀ (n k : Nat) (input : ListShardsInput) (ss : List Shard) (calls : List Call) (fuel : Nat),
      (∀ i, i < n → isTerminal (script (k + i)) = false) →
      isTerminal (script (k + n)) = true →
      n < fuel →
      ∃ shards err cs, listShardsLoop (scripted script) ctx fuel k input ss calls =
          .returned shards err cs ∧ cs.length = calls.length + n + 1 := by
  intro n
  induction n with
  | zero =>
      intro k input ss calls fuel _ hterm hfuel
      obtain ⟨f, rfl⟩ : ∃ f, fuel = f + 1 := ⟨fuel - 1, by omega⟩
      rw [Nat.add_zero] at hterm
      exact ⟨_, _, _, loop_terminal script ctx f k input ss calls hterm, by simp⟩
  | succ m ih =>
      intro k input ss calls fuel h hterm hfuel
      obtain ⟨f, rfl⟩ : ∃ f, fuel = f + 1 := ⟨fuel - 1, by omega⟩
      obtain ⟨resp, hk, htok⟩ := nonterminal_ok (script k) (by simpa using h 0 (by omega))
      rw [loop_next script ctx f k input ss calls resp hk htok]
      obtain ⟨shards, err, cs, hrun, hlen⟩ := ih (k + 1) (followUp resp) (ss ++ resp.Shards)
        (calls ++ [Call.mk ctx input]) f
        (fun i hi => by
          have := h (i + 1) (by omega)
          rw [← this]; congr 2; omega)
        (by rw [← hterm]; congr 2; omega)
        (by omega)
      exact ⟨shards, err, cs, hrun, by rw [hlen]; simp; omega⟩

/-- Every call of the loop is made with the loop's context. -/
theorem loop_ctx {σ : Type} (ksis : KinesisAPI σ) (ctx : Context) :
    ∀ (fuel : Nat) (st : σ) (input : ListShardsInput) (ss : List Shard) (calls : List Call),
      (∀ c ∈ calls, c.ctx = ctx) →
      ∀ c ∈ (listShardsLoop ksis ctx fuel st input ss calls).calls, c.ctx = ctx := by
  intro fuel
  induction fuel with
  | zero => intro st input ss calls h; simpa [listShardsLoop, Run.calls] using h
  | succ f ih =>
      intro st input ss calls h
      have hext : ∀ c ∈ calls ++ [Call.mk ctx input], c.ctx = ctx := by
        intro c hc
        rcases List.mem_append.mp hc with hc | hc
        · exact h c hc
        · simp at hc; rw [hc]
      unfold listShardsLoop
      rcases hcall : ksis.ListShards st ctx input with ⟨res, st'⟩
      cases res with
      | error err => simpa [Run.calls] using hext
      | ok resp =>
          cases htk : resp.NextToken with
          | none => simpa [htk, Run.calls] using hext
          | some tok =>
              simp only [htk]
              exact ih st' _ _ _ hext

/-- Two scripts that show the loop the same tokens make it send the same
calls, whatever shards their pages carry. -/
theorem loop_token_only (script₁ script₂ : Nat → ListShardsResult) (ctx : Context)
    (hsame : ∀ k, tokenView (script₁ k) = tokenView (script₂ k)) :
    ∀ (fuel k : Nat) (input : ListShardsInput) (ss₁ ss₂ : List Shard) (calls : List Call),
      (listShardsLoop (scripted script₁) ctx fuel k input ss₁ calls).calls =
        (listShardsLoop (scripted script₂) ctx fuel k input ss₂ calls).calls ∧
      (listShardsLoop (scripted script₁) ctx fuel k input ss₁ calls).hasReturned =
        (listShardsLoop (scripted script₂) ctx fuel k input ss₂ calls).hasReturned := by
  intro fuel
  induction fuel with
  | zero => intro k input ss₁ ss₂ calls; exact ⟨rfl, rfl⟩
  | succ f ih =>
      intro k input ss₁ ss₂ calls
      have hk := hsame k
      cases h₁ : script₁ k with
      | error e₁ =>
          cases h₂ : script₂ k with
          | error e₂ =>
              rw [loop_error script₁ ctx f k input ss₁ calls e₁ h₁,
                loop_error script₂ ctx f k input ss₂ calls e₂ h₂]
              exact ⟨rfl, rfl⟩
          | ok r₂ => rw [h₁, h₂] at hk; simp [tokenView] at hk
      | ok r₁ =>
          cases h₂ : script₂ k with
          | error e₂ => rw [h₁, h₂] at hk; simp [tokenView] at hk
          | ok r₂ =>
              have htok : r₁.NextToken = r₂.NextToken := by
                rw [h₁, h₂] at hk; simpa [tokenView] using hk
              cases ht : r₁.NextToken with
              | none =>
                  rw [loop_last script₁ ctx f k input ss₁ calls r₁ h₁ ht,
                    loop_last script₂ ctx f k input ss₂ calls r₂ h₂ (htok ▸ ht)]
                  exact ⟨rfl, rfl⟩
              | some tok =>
                  have hn₁ : r₁.NextToken ≠ none := by rw [ht]; simp
                  have hn₂ : r₂.NextToken ≠ none := by rw [← htok, ht]; simp
                  rw [loop_next script₁ ctx f k input ss₁ calls r₁ h₁ hn₁,
                    loop_next script₂ ctx f k input ss₂ calls r₂ h₂ hn₂]
                  have hf : followUp r₁ = followUp r₂ := by simp [followUp, htok]
                  rw [hf]
                  exact ih (k + 1) (followUp r₂) _ _ _

theorem interfaceEq_self (e : GoError) : interfaceEq e e = true := by
  simp [interfaceEq]

theorem errorsIsLoop_self (e : GoError) : errorsIsLoop e e true = true := by
  cases e <;> simp [errorsIsLoop, interfaceEq_self]

theorem errorsAs_assignable (e : GoError) (assignable : String → Bool)
    (h : assignable e.dynType = true) : errorsAs e assignable = some e := by
  cases e <;> simp_all [errorsAs, GoError.dynType]

theorem startsWith_nil (script : Nat → ListShardsResult) : StartsWith script [] := by
  intro i p h
  simp at h

theorem startsWith_singleton (script : Nat → ListShardsResult) (p : ListShardsOutput)
    (h : script 0 = .ok p) : StartsWith script [p] := by
  intro i q hq
  cases i with
  | zero =>
      have hpq : p = q := by simpa using hq
      rw [← hpq]; exact h
  | succ j => simp at hq

/-- The run of `listShards` on a chain, from `loop_chain` at position 0. -/
theorem listShards_chain (streamName : String) (script : Nat → ListShardsResult)
    (pages : List ListShardsOutput) (fuel : Nat)
    (hpages : StartsWith script pages)
    (htoks : ∀ p ∈ pages, p.NextToken ≠ none)
    (hterm : isTerminal (script pages.length) = true)
    (hfuel : pages.length < fuel) :
    listShards fuel (scripted script) 0 streamName =
      .returned (finish (allShards pages) (script pages.length)).1
        (finish (allShards pages) (script pages.length)).2
        ((requestsFor streamName pages).map (Call.mk Context.Background)) := by
  have h := loop_chain script Context.Background pages 0 { StreamName := some streamName } [] []
    fuel (fun i p hp => by simpa using hpages i p hp) htoks (by simpa using hterm) hfuel
  simpa [listShards, requestsFor] using h

theorem allShards_append (ps qs : List ListShardsOutput) :
    allShards (ps ++ qs) = allShards ps ++ allShards qs := by
  induction ps with
  | nil => rfl
  | cons p ps ih => simp [allShards, ih]

/-- A scripted client that has answered one call is the client of the script
shifted by one. -/
theorem loop_shift (script : Nat → ListShardsResult) (ctx : Context) :
    ∀ (fuel j : Nat) (input : ListShardsInput) (ss : List Shard) (calls : List Call),
      listShardsLoop (scripted script) ctx fuel (j + 1) input ss calls =
        listShardsLoop (scripted (fun k => script (k + 1))) ctx fuel j input ss calls := by
  intro fuel
  induction fuel with
  | zero => intro j input ss calls; rfl
  | succ f ih =>
      intro j input ss calls
      cases h : script (j + 1) with
      | error err =>
          rw [loop_error script ctx f (j + 1) input ss calls err h,
            loop_error (fun k => script (k + 1)) ctx f j input ss calls err h]
      | ok resp =>
          cases ht : resp.NextToken with
          | none =>
              rw [loop_last script ctx f (j + 1) input ss calls resp h ht,
                loop_last (fun k => script (k + 1)) ctx f j input ss calls resp h ht]
          | some tok =>
              have hn : resp.NextToken ≠ none := by rw [ht]; simp
              rw [loop_next script ctx f (j + 1) input ss calls resp h hn,
                loop_next (fun k => script (k + 1)) ctx f j input ss calls resp h hn]
              exact ih (j + 1) _ _ _

/-- The loop sees of a client only its responses: on any client it runs as on
the scripted client of the responses observed. -/
theorem loop_eq_scripted {σ : Type} (ksis : KinesisAPI σ) (ctx : Context) :
    ∀ (fuel : Nat) (st : σ) (input : ListShardsInput) (ss : List Shard) (calls : List Call),
      listShardsLoop ksis ctx fuel st input ss calls =
        listShardsLoop (scripted (fun k => observed ksis ctx k st input)) ctx fuel 0
          input ss calls := by
  intro fuel
  induction fuel with
  | zero => intro st input ss calls; rfl
  | succ f ih =>
      intro st input ss calls
      rcases hcall : ksis.ListShards st ctx input with ⟨res, st'⟩
      cases res with
      | error err =>
          rw [loop_error (fun k => observed ksis ctx k st input) ctx f 0 input ss calls err
            (by simp [observed, hcall])]
          simp [listShardsLoop, hcall]
      | ok resp =>
          cases ht : resp.NextToken with
          | none =>
              rw [loop_last (fun k => observed ksis ctx k st input) ctx f 0 input ss calls resp
                (by simp [observed, hcall]) ht]
              simp [listShardsLoop, hcall, ht]
          | some tok =>
              have hn : resp.NextToken ≠ none := by rw [ht]; simp
              rw [loop_next (fun k => observed ksis ctx k st input) ctx f 0 input ss calls resp
                (by simp [observed, hcall]) hn, loop_shift]
              have hshift : (fun k => observed ksis ctx (k + 1) st input) =
                  fun k => observed ksis ctx k st' (followUp resp) := by
                funext k
                simp [observed, hcall, ht, followUp]
              rw [hshift, ← ih st' (followUp resp)]
              simp [listShardsLoop, hcall, ht, followUp]

/-- On any client `listShards` runs as on the scripted client of the responses
that client gives to the listing. -/
theorem listShards_eq_scripted {σ : Type} (fuel : Nat) (ksis : KinesisAPI σ) (st : σ)
    (streamName : String) :
    listShards fuel ksis st streamName =
      listShards fuel
        (scripted (fun k => observed ksis Context.Background k st
          { StreamName := some streamName })) 0 streamName :=
  loop_eq_scripted ksis Context.Background fuel st { StreamName := some streamName } [] []

/-! ## The claims -/

/-- C1: for every stream name and every chain of successful responses
`pages ++ [last]` in which every page of `pages` carries a token and `last`
carries none, `listShards` returns a nil error and the shards of all the
pages, in the order of the pages and in each page's own order. -/
theorem listShards_concatenates_pages (streamName : String)
    (script : Nat → ListShardsResult) (pages : List ListShardsOutput)
    (last : ListShardsOutput) (fuel : Nat)
    (hpages : StartsWith script pages)
    (htoks : ∀ p ∈ pages, p.NextToken ≠ none)
    (hlast : script pages.length = .ok last)
    (hnil : last.NextToken = none)
    (hfuel : pages.length < fuel) :
    ∃ calls, listShards fuel (scripted script) 0 streamName =
      .returned (allShards (pages ++ [last])) none calls := by
  have hterm : isTerminal (script pages.length) = true := by
    rw [hlast]; simp [isTerminal, hnil]
  refine ⟨(requestsFor streamName pages).map (Call.mk Context.Background), ?_⟩
  rw [listShards_chain streamName script pages fuel hpages htoks hterm hfuel, hlast]
  simp [finish, allShards_append, allShards]

theorem listShards_concatenates_pages_witness :
    ∃ calls, listShards 2 (scripted twoPages) 0 "test" =
      .returned [shardA, shardB, shardC] none calls :=
  listShards_concatenates_pages "test" twoPages [pageOne] pageTwo 2
    (startsWith_singleton twoPages pageOne rfl)
    (by intro p hp; simp at hp; subst hp; simp [pageOne])
    rfl rfl (by decide)

/-- C2: on every chain of pages with tokens followed by a response that ends
the listing, `listShards` returns; its error is non-nil if and only if one of
the `ListShards` calls it made returned an error, and then the shard list it
returns is nil, whatever the earlier pages carried. -/
theorem listShards_error_iff_call_failed (streamName : String)
    (script : Nat → ListShardsResult) (pages : List ListShardsOutput) (fuel : Nat)
    (hpages : StartsWith script pages)
    (htoks : ∀ p ∈ pages, p.NextToken ≠ none)
    (hterm : isTerminal (script pages.length) = true)
    (hfuel : pages.length < fuel) :
    ∃ shards err calls,
      listShards fuel (scripted script) 0 streamName = .returned shards err calls ∧
      (err ≠ none ↔ ∃ k, k < calls.length ∧ isError (script k) = true) ∧
      (err ≠ none → shards = []) := by
  refine ⟨_, _, _, listShards_chain streamName script pages fuel hpages htoks hterm hfuel, ?_, ?_⟩
  · cases hfin : script pages.length with
    | error e =>
        simp only [finish, ne_eq, reduceCtorEq, not_false_eq_true, true_iff]
        exact ⟨pages.length, by simp [requestsFor], by rw [hfin]; rfl⟩
    | ok resp =>
        simp only [finish, ne_eq, not_true_eq_false, false_iff, not_exists, not_and]
        intro k hk
        simp only [requestsFor, List.length_map, List.length_cons] at hk
        rcases Nat.lt_or_ge k pages.length with hlt | hge
        · have hget : pages[k]? = some (pages.get ⟨k, hlt⟩) := by simp
          rw [hpages k _ hget]; simp [isError]
        · have hkeq : k = pages.length := by omega
          rw [hkeq, hfin]; simp [isError]
  · cases hfin : script pages.length with
    | error e => simp [finish]
    | ok resp => simp [finish]

theorem listShards_error_iff_call_failed_witness :
    ∃ shards err calls,
      listShards 2 (scripted failsSecond) 0 "test" = .returned shards err calls ∧
      (err ≠ none ↔ ∃ k, k < calls.length ∧ isError (failsSecond k) = true) ∧
      (err ≠ none → shards = []) :=
  listShards_error_iff_call_failed "test" failsSecond [pageOne] 2
    (startsWith_singleton failsSecond pageOne rfl)
    (by intro p hp; simp at hp; subst hp; simp [pageOne])
    rfl (by decide)

/-- C3: for every error value of the kind `ProvisionedThroughputExceededException`
(throughput exceeded), `DefaultRetryer.ShouldRetry` returns true. -/
theorem shouldRetry_throughput_exceeded (q : DefaultRetryer) (err : StoreError)
    (h : err.kind = .ProvisionedThroughputExceededException) :
    q.ShouldRetry err = true := by
  simp [DefaultRetryer.ShouldRetry, h, StoreErrorKind.signal]

theorem shouldRetry_throughput_exceeded_witness :
    DefaultRetryer.ShouldRetry {} ⟨.ProvisionedThroughputExceededException, none⟩ = true :=
  shouldRetry_throughput_exceeded {} ⟨.ProvisionedThroughputExceededException, none⟩ rfl

/-- C4: for every error that is a validation or precondition failure
(`PointInTimeRecoveryUnavailableException`, conditional-write mismatch,
resource-not-found, malformed-request), `DefaultRetryer.ShouldRetry` returns
false. -/
theorem shouldRetry_validation_failure (q : DefaultRetryer) (err : StoreError)
    (h : err.kind.signal = .validationPrecondition) :
    q.ShouldRetry err = false := by
  simp [DefaultRetryer.ShouldRetry, h]

theorem shouldRetry_validation_failure_witness :
    DefaultRetryer.ShouldRetry {} ⟨.PointInTimeRecoveryUnavailableException, none⟩ = false :=
  shouldRetry_validation_failure {} ⟨.PointInTimeRecoveryUnavailableException, none⟩ rfl

/-- C5: for every error that signals service unavailability, in particular
every internal-server-error and every timeout, `DefaultRetryer.ShouldRetry`
returns true. -/
theorem shouldRetry_service_unavailable (q : DefaultRetryer) (err : StoreError)
    (h : err.kind.signal = .serviceUnavailable ∨ err.kind = .InternalServerError ∨
      err.kind = .Timeout) :
    q.ShouldRetry err = true := by
  rcases h with h | h | h
  · simp [DefaultRetryer.ShouldRetry, h]
  · simp [DefaultRetryer.ShouldRetry, h, StoreErrorKind.signal]
  · simp [DefaultRetryer.ShouldRetry, h, StoreErrorKind.signal]

theorem shouldRetry_service_unavailable_witness :
    DefaultRetryer.ShouldRetry {} ⟨.InternalServerError, some "internal failure"⟩ = true ∧
      DefaultRetryer.ShouldRetry {} ⟨.Timeout, none⟩ = true :=
  ⟨shouldRetry_service_unavailable {} ⟨.InternalServerError, some "internal failure"⟩
    (Or.inr (Or.inl rfl)),
   shouldRetry_service_unavailable {} ⟨.Timeout, none⟩ (Or.inr (Or.inr rfl))⟩

/-- C6, as the claim states it, fails: on a client that serves two pages, with
the scan running under the cancellable context of `trap`, not every
`ListShards` call of `listShards` is passed the scan's context. -/
theorem listShards_not_scan_context :
    ¬ ∀ c ∈ (listShards 2 (scripted twoPages) 0 "test").calls, c.ctx = scanContext := by
  intro h
  have hc := h ⟨Context.Background, { StreamName := some "test" }⟩
    (by simp [listShards, listShardsLoop, scripted, twoPages, pageOne, pageTwo, Run.calls])
  simp [scanContext] at hc

/-- C6, amended: every `ListShards` call made by `listShards`, on any client and
whether or not the listing has returned yet, is passed `context.Background()`,
a context that can never be cancelled. -/
theorem listShards_calls_use_background {σ : Type} (fuel : Nat) (ksis : KinesisAPI σ)
    (st : σ) (streamName : String) :
    ∀ c ∈ (listShards fuel ksis st streamName).calls,
      c.ctx = Context.Background ∧ c.ctx.canBeCancelled = false := by
  intro c hc
  have h := loop_ctx ksis Context.Background fuel st { StreamName := some streamName } [] []
    (by simp) c hc
  exact ⟨h, by rw [h]; rfl⟩

theorem listShards_calls_use_background_witness :
    Call.mk Context.Background { NextToken := some "token-1" } ∈
        (listShards 2 (scripted twoPages) 0 "test").calls ∧
      (Call.mk Context.Background { NextToken := some "token-1" }).ctx = Context.Background ∧
      (Call.mk Context.Background { NextToken := some "token-1" }).ctx.canBeCancelled = false :=
  have hmem : Call.mk Context.Background { NextToken := some "token-1" } ∈
      (listShards 2 (scripted twoPages) 0 "test").calls := by
    simp [listShards, listShardsLoop, scripted, twoPages, pageOne, pageTwo, Run.calls]
  ⟨hmem, listShards_calls_use_background 2 (scripted twoPages) 0 "test"
    ⟨Context.Background, { NextToken := some "token-1" }⟩ hmem⟩

/-- C7: when a listing of stream `streamName` receives pages with the tokens
`tokens` and then a response that ends the listing, the requests it has sent
are exactly the stream name with no token, followed by each token of `tokens`
in turn with no stream name; nothing is sent after the ending response. -/
theorem listShards_request_sequence (streamName : String)
    (script : Nat → ListShardsResult) (pages : List ListShardsOutput)
    (tokens : List String) (fuel : Nat)
    (hpages : StartsWith script pages)
    (htokens : pages.map (fun p => p.NextToken) = tokens.map some)
    (hterm : isTerminal (script pages.length) = true)
    (hfuel : pages.length < fuel) :
    (listShards fuel (scripted script) 0 streamName).hasReturned = true ∧
    (listShards fuel (scripted script) 0 streamName).calls.map Call.input =
      ⟨some streamName, none, none, none⟩ ::
        tokens.map (fun t => ⟨none, some t, none, none⟩) := by
  have htoks : ∀ p ∈ pages, p.NextToken ≠ none := by
    intro p hp hnone
    have hmem : p.NextToken ∈ pages.map (fun p => p.NextToken) :=
      List.mem_map.mpr ⟨p, hp, rfl⟩
    rw [htokens, hnone] at hmem
    simp at hmem
  rw [listShards_chain streamName script pages fuel hpages htoks hterm hfuel]
  refine ⟨rfl, ?_⟩
  have hmap : pages.map followUp = tokens.map (fun t => ⟨none, some t, none, none⟩) := by
    have h1 : pages.map followUp =
        (pages.map (fun p => p.NextToken)).map (fun o => ⟨none, o, none, none⟩) := by
      simp [List.map_map, followUp, Function.comp_def]
    rw [h1, htokens]
    simp [List.map_map, Function.comp_def]
  simp [Run.calls, requestsFor, List.map_map, Function.comp_def, ← hmap]

theorem listShards_request_sequence_witness :
    (listShards 2 (scripted twoPages) 0 "test").hasReturned = true ∧
    (listShards 2 (scripted twoPages) 0 "test").calls.map Call.input =
      [⟨some "test", none, none, none⟩, ⟨none, some "token-1", none, none⟩] :=
  listShards_request_sequence "test" twoPages [pageOne] ["token-1"] 2
    (startsWith_singleton twoPages pageOne rfl) rfl rfl (by decide)

/-- C8: pagination is decided by the token alone.  Two clients whose responses
agree on errors and tokens get the same calls and are returned to alike,
whatever shards their pages carry; an empty page with a token is followed by
the request for the next page, whose shards are returned; an empty page
without a token ends the listing with an empty result and a nil error. -/
theorem listShards_pagination_by_token_alone :
    (∀ (script₁ script₂ : Nat → ListShardsResult) (streamName : String) (fuel : Nat),
      (∀ k, tokenView (script₁ k) = tokenView (script₂ k)) →
      (listShards fuel (scripted script₁) 0 streamName).calls =
        (listShards fuel (scripted script₂) 0 streamName).calls ∧
      (listShards fuel (scripted script₁) 0 streamName).hasReturned =
        (listShards fuel (scripted script₂) 0 streamName).hasReturned) ∧
    (∀ (script : Nat → ListShardsResult) (streamName tok : String) (last : ListShardsOutput)
        (fuel : Nat),
      script 0 = .ok ⟨some tok, []⟩ → script 1 = .ok last → last.NextToken = none →
      2 ≤ fuel →
      listShards fuel (scripted script) 0 streamName =
        .returned last.Shards none
          [⟨Context.Background, ⟨some streamName, none, none, none⟩⟩,
           ⟨Context.Background, ⟨none, some tok, none, none⟩⟩]) ∧
    (∀ (script : Nat → ListShardsResult) (streamName : String) (fuel : Nat),
      script 0 = .ok ⟨none, []⟩ → 1 ≤ fuel →
      listShards fuel (scripted script) 0 streamName =
        .returned [] none [⟨Context.Background, ⟨some streamName, none, none, none⟩⟩]) := by
  refine ⟨?_, ?_, ?_⟩
  · intro script₁ script₂ streamName fuel hsame
    exact loop_token_only script₁ script₂ Context.Background hsame fuel 0
      { StreamName := some streamName } [] [] []
  · intro script streamName tok last fuel h0 h1 hnil hfuel
    have hterm : isTerminal (script [ListShardsOutput.mk (some tok) []].length) = true := by
      simp [h1, isTerminal, hnil]
    rw [listShards_chain streamName script [⟨some tok, []⟩] fuel
      (startsWith_singleton script _ h0) (by simp) hterm (by simpa using hfuel)]
    simp [h1, finish, allShards, requestsFor, followUp]
  · intro script streamName fuel h0 hfuel
    have hterm : isTerminal (script ([] : List ListShardsOutput).length) = true := by
      simp [h0, isTerminal]
    rw [listShards_chain streamName script [] fuel (startsWith_nil script) (by simp) hterm
      (by simpa using hfuel)]
    simp [h0, finish, allShards, requestsFor]

theorem listShards_pagination_by_token_alone_witness :
    listShards 2 (scripted emptyThenPage) 0 "test" =
        .returned [shardC] none
          [⟨Context.Background, ⟨some "test", none, none, none⟩⟩,
           ⟨Context.Background, ⟨none, some "token-1", none, none⟩⟩] ∧
    listShards 1 (scripted (fun _ => .ok emptyLastPage)) 0 "test" =
        .returned [] none [⟨Context.Background, ⟨some "test", none, none, none⟩⟩] ∧
    (listShards 2 (scripted emptyThenPage) 0 "test").calls =
        (listShards 2 (scripted twoPages) 0 "test").calls :=
  ⟨listShards_pagination_by_token_alone.2.1 emptyThenPage "test" "token-1" pageTwo 2
      rfl rfl rfl (by decide),
   listShards_pagination_by_token_alone.2.2 (fun _ => .ok emptyLastPage) "test" 1
      rfl (by decide),
   (listShards_pagination_by_token_alone.1 emptyThenPage twoPages "test" 2
      (by intro k; cases k <;> rfl)).1⟩

/-- C9, as the claim states it, fails: when the first `ListShards` call fails
with an error whose dynamic type is not comparable, `listShards` returns the
wrapping error, and `errors.Is` of that error against the cause is false. -/
theorem listShards_error_is_not_comparable :
    listShards 1 (scripted failsWithSliceErr) 0 "test" =
        .returned [] (some (fmtErrorfW "ListShards error: " sliceErr))
          [⟨Context.Background, ⟨some "test", none, none, none⟩⟩] ∧
      errorsIs (fmtErrorfW "ListShards error: " sliceErr) sliceErr = false := by
  refine ⟨?_, ?_⟩
  · simp [listShards, listShardsLoop, scripted, failsWithSliceErr]
  · simp [errorsIs, errorsIsLoop, fmtErrorfW, sliceErr, GoError.comparable]

/-- C9, amended: when the `ListShards` call that follows a chain of pages with
tokens fails with error `e`, `listShards` returns an error that wraps `e`:
unwrapping it yields `e`, its message is "ListShards error: " followed by the
message of `e`, `errors.As` succeeds for every target type that the dynamic
type of `e` is assignable to, and `errors.Is` against `e` succeeds whenever the
dynamic type of `e` is comparable. -/
theorem listShards_error_wraps_cause (streamName : String)
    (script : Nat → ListShardsResult) (pages : List ListShardsOutput) (e : GoError)
    (fuel : Nat)
    (hpages : StartsWith script pages)
    (htoks : ∀ p ∈ pages, p.NextToken ≠ none)
    (hfail : script pages.length = .error e)
    (hfuel : pages.length < fuel) :
    ∃ w calls, listShards fuel (scripted script) 0 streamName = .returned [] (some w) calls ∧
      w.Unwrap = some e ∧
      w.Error = "ListShards error: " ++ e.Error ∧
      (e.comparable = true → errorsIs w e = true) ∧
      (∀ assignable : String → Bool, assignable e.dynType = true →
        (errorsAs w assignable).isSome = true) := by
  have hterm : isTerminal (script pages.length) = true := by rw [hfail]; rfl
  refine ⟨fmtErrorfW "ListShards error: " e,
    (requestsFor streamName pages).map (Call.mk Context.Background), ?_, rfl, rfl, ?_, ?_⟩
  · rw [listShards_chain streamName script pages fuel hpages htoks hterm hfuel, hfail]
    rfl
  · intro hcmp
    simp [fmtErrorfW, errorsIs, errorsIsLoop, hcmp, errorsIsLoop_self]
  · intro assignable hasg
    by_cases hw : assignable "*fmt.wrapError" = true
    · simp [fmtErrorfW, errorsAs, hw]
    · simp [fmtErrorfW, errorsAs, hw, errorsAs_assignable e assignable hasg]

theorem listShards_error_wraps_cause_witness :
    ∃ w calls, listShards 2 (scripted failsSecond) 0 "test" = .returned [] (some w) calls ∧
      w.Unwrap = some streamNotFound ∧
      w.Error = "ListShards error: " ++ streamNotFound.Error ∧
      (streamNotFound.comparable = true → errorsIs w streamNotFound = true) ∧
      (∀ assignable : String → Bool, assignable streamNotFound.dynType = true →
        (errorsAs w assignable).isSome = true) :=
  listShards_error_wraps_cause "test" failsSecond [pageOne] streamNotFound 2
    (startsWith_singleton failsSecond pageOne rfl)
    (by intro p hp; simp at hp; subst hp; simp [pageOne])
    rfl (by decide)

/-- C10: when the first response that ends the listing (an error or a page
without a token) is the one to call number `n + 1`, `listShards` returns as soon
as it is given more than `n` iterations, having made exactly `n + 1` calls, and
has not returned within `n` iterations or fewer; on a client whose every page
carries a token it has not returned after any number of iterations, each of
which has made one call. -/
theorem listShards_terminates_at_first_terminal :
    (∀ (script : Nat → ListShardsResult) (streamName : String) (n fuel : Nat),
      (∀ i, i < n → isTerminal (script i) = false) →
      isTerminal (script n) = true →
      (n < fuel → ∃ shards err calls,
        listShards fuel (scripted script) 0 streamName = .returned shards err calls ∧
        calls.length = n + 1) ∧
      (fuel ≤ n → ∃ calls,
        listShards fuel (scripted script) 0 streamName = .outOfFuel calls ∧
        calls.length = fuel)) ∧
    (∀ (script : Nat → ListShardsResult) (streamName : String),
      (∀ k, isTerminal (script k) = false) →
      ∀ fuel, ∃ calls,
        listShards fuel (scripted script) 0 streamName = .outOfFuel calls ∧
        calls.length = fuel) := by
  refine ⟨?_, ?_⟩
  · intro script streamName n fuel hbefore hterm
    refine ⟨?_, ?_⟩
    · intro hfuel
      obtain ⟨shards, err, cs, hrun, hlen⟩ := loop_returns script Context.Background n 0
        { StreamName := some streamName } [] [] fuel
        (fun i hi => by simpa using hbefore i hi) (by simpa using hterm) hfuel
      exact ⟨shards, err, cs, hrun, by simpa using hlen⟩
    · intro hfuel
      obtain ⟨cs, hrun, hlen⟩ := loop_starved script Context.Background fuel 0
        { StreamName := some streamName } [] []
        (fun i hi => by simpa using hbefore i (by omega))
      exact ⟨cs, hrun, by simpa using hlen⟩
  · intro script streamName hall fuel
    obtain ⟨cs, hrun, hlen⟩ := loop_starved script Context.Background fuel 0
      { StreamName := some streamName } [] [] (fun i _ => hall (0 + i))
    exact ⟨cs, hrun, by simpa using hlen⟩

theorem listShards_terminates_at_first_terminal_witness :
    (∃ shards err calls,
      listShards 2 (scripted failsSecond) 0 "test" = .returned shards err calls ∧
      calls.length = 1 + 1) ∧
    (∃ calls, listShards 1 (scripted failsSecond) 0 "test" = .outOfFuel calls ∧
      calls.length = 1) ∧
    (∃ calls, listShards 5 (scripted endless) 0 "test" = .outOfFuel calls ∧
      calls.length = 5) :=
  ⟨(listShards_terminates_at_first_terminal.1 failsSecond "test" 1 2
      (by intro i hi; obtain rfl : i = 0 := by omega
          rfl) rfl).1 (by decide),
   (listShards_terminates_at_first_terminal.1 failsSecond "test" 1 1
      (by intro i hi; obtain rfl : i = 0 := by omega
          rfl) rfl).2 (by decide),
   listShards_terminates_at_first_terminal.2 endless "test" (fun _ => rfl) 5⟩

end KinesisConsumer
